import Mathlib

set_option autoImplicit false
set_option maxRecDepth 4096

namespace EguiLogger

/-! Shallow embedding of the egui_logger core: the bounded log store of
src/lib.rs together with the lock wrappers, filtered traversal and copy
handler of src/ui.rs, and the escape-sequence decoding pipeline that each
record runs through when displayed. -/

/-- Severity levels of the log crate, most severe first. The Rust enum has
discriminants Error = 1 .. Trace = 5 and derives its order from them. -/
inductive Level where
  | error
  | warn
  | info
  | debug
  | trace
deriving DecidableEq, Repr

/-- Numeric discriminant of a severity level in the log crate. -/
def Level.num : Level → Nat
  | .error => 1
  | .warn => 2
  | .info => 3
  | .debug => 4
  | .trace => 5

/-- Level filters of the log crate, with discriminants Off = 0 .. Trace = 5. -/
inductive LevelFilter where
  | off
  | error
  | warn
  | info
  | debug
  | trace
deriving DecidableEq, Repr

/-- Numeric discriminant of a level filter in the log crate. -/
def LevelFilter.num : LevelFilter → Nat
  | .off => 0
  | .error => 1
  | .warn => 2
  | .info => 3
  | .debug => 4
  | .trace => 5

/-- The comparison between a level and a filter used by log_filter_process
(src/ui.rs line 32): the log crate compares the numeric discriminants, so
this is true exactly when l is at least as severe as the threshold lf. -/
def levelPasses (l : Level) (lf : LevelFilter) : Bool :=
  decide (l.num ≤ lf.num)

/-- One stored record, a pair of a level and a formatted line; the Rust
String is modelled as its character sequence. -/
abbrev LogRecord := Level × List Char

/-- GlobalLog (src/lib.rs line 140) is a VecDeque of records, modelled as a
list whose head is the front of the deque. -/
abbrev GlobalLog := List LogRecord

/-- LOG_MAX_LEN (src/lib.rs line 10). -/
def LOG_MAX_LEN : Nat := 10000

/-- The store mutation performed by the log method (src/lib.rs lines
124-127): push_front followed by truncate, which keeps the first
LOG_MAX_LEN elements counted from the front. -/
def logPush (r : LogRecord) (logs : GlobalLog) : GlobalLog :=
  (r :: logs).take LOG_MAX_LEN

/-- The clear operation (src/lib.rs lines 164-166). -/
def logClear (_logs : GlobalLog) : GlobalLog := []

/-- Pushing a list of records in order into the empty store, oldest first. -/
def pushAll (recs : List LogRecord) : GlobalLog :=
  recs.foldl (fun logs r => logPush r logs) []

/-- The static LOG mutex cell (src/lib.rs line 142) together with its
poison flag: locking returns Err exactly when the mutex is poisoned. -/
structure LockedLog where
  poisoned : Bool
  logs : GlobalLog
deriving DecidableEq, Repr

/-- try_mut_log (src/ui.rs lines 6-14): on Ok the closure runs on the store
and its result is returned in Some; on Err nothing happens and None is
returned. -/
def tryMutLog {α : Type} (f : GlobalLog → GlobalLog × α) (st : LockedLog) :
    LockedLog × Option α :=
  if st.poisoned then (st, none)
  else ((⟨st.poisoned, (f st.logs).1⟩ : LockedLog), some (f st.logs).2)

/-- try_get_log (src/ui.rs lines 16-24). -/
def tryGetLog {α : Type} (f : GlobalLog → α) (st : LockedLog) : Option α :=
  if st.poisoned then none else some (f st.logs)

/-- The store write performed by the log method (src/lib.rs lines 124-127),
wrapped in try_mut_log. -/
def logStorePush (r : LogRecord) (st : LockedLog) : LockedLog :=
  (tryMutLog (fun logs => (logPush r logs, ())) st).1

/-- log_filter_process (src/ui.rs lines 29-38): iterates the store front to
back, calling the visitor only on records passing the filter and counting
them. The first component records the visitor calls in order; on lock
failure the closure never runs, so nothing is visited and the counter that
was initialized to zero is returned. -/
def logFilterProcess (lf : LevelFilter) (st : LockedLog) :
    List LogRecord × Nat :=
  match tryGetLog
      (fun logs => logs.foldl
        (fun acc r =>
          if levelPasses r.1 lf then (acc.1 ++ [r], acc.2 + 1) else acc)
        ([], 0)) st with
  | some res => res
  | none => ([], 0)

/-- The log size display (src/ui.rs line 108): try_get_log of len with
unwrap_or_default. -/
def lenQuery (st : LockedLog) : Nat :=
  (tryGetLog (fun logs => logs.length) st).getD 0

/-- The Copy Logs handler body (src/ui.rs lines 114-121): folds over all
records front to back, appending the raw text and then a space and a
newline, with no level filtering. -/
def copyLogs (logs : GlobalLog) : List Char :=
  logs.foldl (fun out r => out ++ r.2 ++ [' ', '\n']) []

/-- The records a threshold selects, in store order: the filter predicate of
log_filter_process (src/ui.rs line 32). -/
def selectedRecords (lf : LevelFilter) (logs : GlobalLog) : GlobalLog :=
  logs.filter (fun r => levelPasses r.1 lf)

/-! ### Store lemmas -/

theorem take_append_take {α : Type} (n : Nat) (xs ys : List α) :
    (xs ++ ys.take n).take n = (xs ++ ys).take n := by
  rw [List.take_append_eq_append_take, List.take_append_eq_append_take,
    List.take_take, Nat.min_eq_left (Nat.sub_le n xs.length)]

theorem foldl_logPush_eq (recs : List LogRecord) :
    ∀ logs : GlobalLog, logs.length ≤ LOG_MAX_LEN →
      recs.foldl (fun logs r => logPush r logs) logs
        = (recs.reverse ++ logs).take LOG_MAX_LEN := by
  induction recs with
  | nil =>
      intro logs h
      simp [List.take_of_length_le h]
  | cons r rs ih =>
      intro logs _
      rw [List.foldl_cons, ih (logPush r logs) (List.length_take_le _ _)]
      unfold logPush
      rw [take_append_take]
      simp

theorem pushAll_eq (recs : List LogRecord) :
    pushAll recs = (recs.reverse).take LOG_MAX_LEN := by
  unfold pushAll
  rw [foldl_logPush_eq recs [] (by simp)]
  simp

theorem foldl_filter_count (p : LogRecord → Bool) (logs : GlobalLog) :
    ∀ (acc : List LogRecord) (n : Nat),
      logs.foldl
          (fun acc r => if p r then (acc.1 ++ [r], acc.2 + 1) else acc)
          (acc, n)
        = (acc ++ logs.filter p, n + (logs.filter p).length) := by
  induction logs with
  | nil =>
      intro acc n
      simp
  | cons r rs ih =>
      intro acc n
      by_cases h : p r
      · rw [List.foldl_cons]
        simp only [h, if_pos]
        rw [ih]
        simp [List.filter_cons, h]
        omega
      · rw [List.foldl_cons]
        simp only [h]
        rw [if_neg (by simp [h]), ih]
        simp [List.filter_cons, h]

/-! ### Claims about the store -/

/-- Claim C3: starting from the empty store, after N pushes the length is
min(N, LOG_MAX_LEN); moreover every single mutation, push or clear, leaves
the length at most LOG_MAX_LEN. -/
theorem c3_bounded_size :
    (∀ recs : List LogRecord,
        (pushAll recs).length = min recs.length LOG_MAX_LEN)
    ∧ (∀ (r : LogRecord) (logs : GlobalLog),
        (logPush r logs).length ≤ LOG_MAX_LEN)
    ∧ (∀ logs : GlobalLog, (logClear logs).length ≤ LOG_MAX_LEN) := by
  refine ⟨?_, ?_, ?_⟩
  · intro recs
    rw [pushAll_eq]
    simp [Nat.min_comm]
  · intro r logs
    exact List.length_take_le _ _
  · intro logs
    simp [logClear]

/-- Claim C4: after pushing LOG_MAX_LEN + k records into the empty store,
the store holds exactly the most recent LOG_MAX_LEN records, the oldest k
having been evicted, with no reordering among the survivors: the store
lists them newest first, which is its canonical traversal order. -/
theorem c4_eviction (recs : List LogRecord) (k : Nat)
    (h : recs.length = LOG_MAX_LEN + k) :
    pushAll recs = (recs.drop k).reverse := by
  rw [pushAll_eq, List.take_reverse, h]
  have h2 : LOG_MAX_LEN + k - LOG_MAX_LEN = k := by omega
  rw [h2]

/-- Witness for C4 at a concrete input: 10000 identical records, k = 0. -/
theorem c4_eviction_witness :
    pushAll (List.replicate 10000 ((Level.info, []) : LogRecord))
      = ((List.replicate 10000 ((Level.info, []) : LogRecord)).drop 0).reverse :=
  c4_eviction _ 0 (by rw [List.length_replicate, LOG_MAX_LEN])

/-- Claim C5: with the lock healthy, the filtered traversal visits exactly
the records whose severity passes the threshold, in store order, and
returns the number of visited records; and the store order is
newest-to-oldest with respect to the pushes that built it. -/
theorem c5_filter_traversal :
    (∀ (logs : GlobalLog) (lf : LevelFilter),
        logFilterProcess lf ⟨false, logs⟩
          = (selectedRecords lf logs, (selectedRecords lf logs).length))
    ∧ (∀ (recs : List LogRecord) (lf : LevelFilter),
        (logFilterProcess lf ⟨false, pushAll recs⟩).1
          = selectedRecords lf ((recs.reverse).take LOG_MAX_LEN)) := by
  have base : ∀ (logs : GlobalLog) (lf : LevelFilter),
      logFilterProcess lf ⟨false, logs⟩
        = (selectedRecords lf logs, (selectedRecords lf logs).length) := by
    intro logs lf
    show logs.foldl
        (fun acc r =>
          if levelPasses r.1 lf then (acc.1 ++ [r], acc.2 + 1) else acc)
        ([], 0) = _
    rw [foldl_filter_count]
    simp [selectedRecords]
  refine ⟨base, ?_⟩
  intro recs lf
  rw [base (pushAll recs) lf, pushAll_eq]

/-- Claim C6: with the lock poisoned, a push leaves the store unchanged, the
filtered traversal makes no visitor calls and returns zero, and the length
query returns zero. All modelled operations are total functions, so each
returns a result without propagating an error. -/
theorem c6_lock_poisoned (st : LockedLog) (h : st.poisoned = true) :
    (∀ r : LogRecord, logStorePush r st = st)
    ∧ (∀ lf : LevelFilter, logFilterProcess lf st = ([], 0))
    ∧ lenQuery st = 0 := by
  refine ⟨?_, ?_, ?_⟩
  · intro r
    simp [logStorePush, tryMutLog, h]
  · intro lf
    simp [logFilterProcess, tryGetLog, h]
  · simp [lenQuery, tryGetLog, h]

/-- Witness for C6 at a concrete poisoned state. -/
theorem c6_lock_poisoned_witness :
    (logStorePush (Level.error, []) ⟨true, [(Level.info, ['x'])]⟩
        = (⟨true, [(Level.info, ['x'])]⟩ : LockedLog))
    ∧ (logFilterProcess LevelFilter.trace ⟨true, [(Level.info, ['x'])]⟩
        = ([], 0))
    ∧ lenQuery ⟨true, [(Level.info, ['x'])]⟩ = 0 :=
  ⟨(c6_lock_poisoned _ rfl).1 _, (c6_lock_poisoned _ rfl).2.1 _,
    (c6_lock_poisoned _ rfl).2.2⟩

/-! ### Claims about the copy handler -/

theorem foldl_copy (logs : GlobalLog) :
    ∀ out : List Char,
      logs.foldl (fun out r => out ++ r.2 ++ [' ', '\n']) out
        = out ++ (logs.map (fun r => r.2 ++ [' ', '\n'])).flatten := by
  induction logs with
  | nil =>
      intro out
      simp
  | cons r rs ih =>
      intro out
      rw [List.foldl_cons, ih]
      simp

/-- Claim C2 is false as stated: two stores whose threshold-selected record
lists coincide produce different copy outputs, because the Copy Logs
handler takes no threshold and copies every retained record; the output for
the larger store contains the text of the record the threshold rejects. -/
theorem c2_counterexample :
    selectedRecords LevelFilter.error
        [(Level.error, ['e']), (Level.trace, ['t'])]
      = selectedRecords LevelFilter.error [(Level.error, ['e'])]
    ∧ copyLogs [(Level.error, ['e']), (Level.trace, ['t'])]
        ≠ copyLogs [(Level.error, ['e'])]
    ∧ copyLogs [(Level.error, ['e']), (Level.trace, ['t'])]
        = "e \nt \n".toList := by
  decide

/-- Claim C2 as amended: the plain-text export ignores the threshold; it is
the concatenation of the raw text of all retained records, front of the
store (newest) first, each record followed by one space and one newline. -/
theorem c2_amended (logs : GlobalLog) :
    copyLogs logs = (logs.map (fun r => r.2 ++ [' ', '\n'])).flatten := by
  unfold copyLogs
  rw [foldl_copy]
  simp

/-! ### The escape-sequence decoding pipeline

The UI decodes each stored line by feeding its bytes through an
anstyle_parse Parser driving an AnstylePerformer (src/ui.rs lines 40 to 63
and 91 to 100). The Parser is the table-driven VT500-series state machine
of the anstyle_parse crate (an external dependency, embedded here as a
transition function over its states): the Perform print callback fires
only in the ground state and only for printable input, C0 control bytes
are dispatched to the execute callback, and escape or control sequences
walk the escape, CSI, OSC and DCS states without printing. The
AnstylePerformer of this repository overrides only print, so every other
callback is the default no-op, and only the print calls plus the final
flush determine the emitted output. In the ground state the Utf8Parser
assembles bytes at or above 0x80 into one printed character; the model
therefore works on characters, classified by code point, which agrees with
the byte-level machine on all escape-free positions and keeps a single
step for a multi-byte character elsewhere. -/

/-- The states of the anstyle_parse state machine. -/
inductive VtState where
  | ground
  | escape
  | escapeIntermediate
  | csiEntry
  | csiParam
  | csiIntermediate
  | csiIgnore
  | oscString
  | dcsEntry
  | dcsParam
  | dcsIntermediate
  | dcsPassthrough
  | dcsIgnore
  | sosPmApcString
deriving DecidableEq, Repr

/-- The state transition of the anstyle_parse machine on one input unit.
The two anywhere rules come first: CAN and SUB abort to ground, ESC starts
an escape from every state. -/
def vtNext (st : VtState) (c : Char) : VtState :=
  let n := c.toNat
  if n = 0x1B then .escape
  else if n = 0x18 ∨ n = 0x1A then .ground
  else match st with
  | .ground => .ground
  | .escape =>
      if 0x20 ≤ n ∧ n ≤ 0x2F then .escapeIntermediate
      else if n = 0x5B then .csiEntry
      else if n = 0x5D then .oscString
      else if n = 0x50 then .dcsEntry
      else if n = 0x58 ∨ n = 0x5E ∨ n = 0x5F then .sosPmApcString
      else if 0x30 ≤ n ∧ n ≤ 0x7E then .ground
      else .escape
  | .escapeIntermediate =>
      if 0x30 ≤ n ∧ n ≤ 0x7E then .ground
      else if 0x20 ≤ n ∧ n ≤ 0x2F then .escapeIntermediate
      else .escapeIntermediate
  | .csiEntry =>
      if 0x40 ≤ n ∧ n ≤ 0x7E then .ground
      else if 0x20 ≤ n ∧ n ≤ 0x2F then .csiIntermediate
      else if n = 0x3A then .csiIgnore
      else if 0x30 ≤ n ∧ n ≤ 0x3F then .csiParam
      else .csiEntry
  | .csiParam =>
      if 0x40 ≤ n ∧ n ≤ 0x7E then .ground
      else if 0x20 ≤ n ∧ n ≤ 0x2F then .csiIntermediate
      else if n = 0x3A ∨ (0x3C ≤ n ∧ n ≤ 0x3F) then .csiIgnore
      else .csiParam
  | .csiIntermediate =>
      if 0x40 ≤ n ∧ n ≤ 0x7E then .ground
      else if 0x30 ≤ n ∧ n ≤ 0x3F then .csiIgnore
      else .csiIntermediate
  | .csiIgnore =>
      if 0x40 ≤ n ∧ n ≤ 0x7E then .ground
      else .csiIgnore
  | .oscString =>
      if n = 0x07 then .ground
      else .oscString
  | .dcsEntry =>
      if 0x40 ≤ n ∧ n ≤ 0x7E then .dcsPassthrough
      else if 0x20 ≤ n ∧ n ≤ 0x2F then .dcsIntermediate
      else if n = 0x3A then .dcsIgnore
      else if 0x30 ≤ n ∧ n ≤ 0x3F then .dcsParam
      else .dcsEntry
  | .dcsParam =>
      if 0x40 ≤ n ∧ n ≤ 0x7E then .dcsPassthrough
      else if 0x20 ≤ n ∧ n ≤ 0x2F then .dcsIntermediate
      else if n = 0x3A ∨ (0x3C ≤ n ∧ n ≤ 0x3F) then .dcsIgnore
      else .dcsParam
  | .dcsIntermediate =>
      if 0x40 ≤ n ∧ n ≤ 0x7E then .dcsPassthrough
      else if 0x30 ≤ n ∧ n ≤ 0x3F then .dcsIgnore
      else .dcsIntermediate
  | .dcsPassthrough => .dcsPassthrough
  | .dcsIgnore => .dcsIgnore
  | .sosPmApcString => .sosPmApcString

/-- Whether the machine delivers the current input unit to the print
callback: only in the ground state, and only for code points at or above
0x20 (printable ASCII and DEL directly, higher code points through the
Utf8Parser); C0 controls are dispatched to execute instead. -/
def vtPrints (st : VtState) (c : Char) : Bool :=
  match st with
  | .ground => decide (0x20 ≤ c.toNat)
  | _ => false

/-- The colors the UI constructs (src/ui.rs lines 85 to 89): the
severity-derived base colors; Color32 values not built by this code are
irrelevant to the model. -/
inductive Color32 where
  | placeholder
  | yellow
  | red
deriving DecidableEq, Repr

/-- The base color chosen for a record from its severity
(src/ui.rs lines 85 to 89). -/
def levelColor (l : Level) : Color32 :=
  match l with
  | .warn => .yellow
  | .error => .red
  | _ => .placeholder

/-- One colored_label call made by the performer: a maximal emitted text
fragment together with its color. -/
structure StyledRun where
  text : List Char
  color : Color32
deriving DecidableEq, Repr

/-- The AnstylePerformer (src/ui.rs lines 40 to 44): the list of
colored_label calls made so far, the pending text buffer and the color. -/
structure AnstylePerformer where
  labels : List StyledRun
  text : List Char
  color : Color32
deriving DecidableEq, Repr

/-- flush (src/ui.rs lines 47 to 52): when the pending buffer is nonempty,
emit it as one colored label and clear it; otherwise do nothing. -/
def AnstylePerformer.flush (p : AnstylePerformer) : AnstylePerformer :=
  if p.text = [] then p
  else ⟨p.labels ++ [⟨p.text, p.color⟩], [], p.color⟩

/-- The print callback (src/ui.rs lines 56 to 62): a newline flushes, any
other character is appended to the pending buffer. -/
def AnstylePerformer.printChar (p : AnstylePerformer) (c : Char) :
    AnstylePerformer :=
  if c = '\n' then p.flush else ⟨p.labels, p.text ++ [c], p.color⟩

/-- One parser.advance call (src/ui.rs line 98): the machine classifies the
input unit in the current state, delivering it to print when the ground
state prints it, and transitions. -/
def decodeStep (ps : AnstylePerformer × VtState) (c : Char) :
    AnstylePerformer × VtState :=
  (if vtPrints ps.2 c then ps.1.printChar c else ps.1, vtNext ps.2 c)

/-- Decoding one stored line (src/ui.rs lines 91 to 100): a fresh parser in
the ground state, a performer with an empty buffer and the severity-derived
base color, every input unit advanced through the parser, and a final
flush. The result is the list of colored labels emitted for the line. -/
def decodeLine (color : Color32) (cs : List Char) : List StyledRun :=
  ((cs.foldl decodeStep (⟨[], [], color⟩, .ground)).1.flush).labels

/-- Concatenation of the text fragments of a run list. -/
def runsText (rs : List StyledRun) : List Char :=
  (rs.map StyledRun.text).flatten

/-- The characters of a line that the machine prints, starting from a given
state: the line with escape sequences and control characters removed. -/
def vtStrip (st : VtState) : List Char → List Char
  | [] => []
  | c :: cs => (if vtPrints st c then [c] else []) ++ vtStrip (vtNext st c) cs

/-! ### Decoder lemmas -/

theorem vtPrints_newline_false : ∀ st : VtState, vtPrints st '\n' = false := by
  intro st
  cases st <;> decide

theorem vtPrints_ne_newline {st : VtState} {c : Char}
    (h : vtPrints st c = true) : ¬ c = '\n' := by
  intro hc
  subst hc
  rw [vtPrints_newline_false st] at h
  cases h

theorem decode_concat_aux :
    ∀ (cs : List Char) (st : VtState) (p : AnstylePerformer),
      runsText ((cs.foldl decodeStep (p, st)).1.flush.labels)
        = runsText p.labels ++ p.text ++ vtStrip st cs := by
  intro cs
  induction cs with
  | nil =>
      intro st p
      simp only [List.foldl_nil, vtStrip]
      unfold AnstylePerformer.flush
      by_cases h : p.text = []
      · simp [h]
      · simp [h, runsText]
  | cons c cs ih =>
      intro st p
      rw [List.foldl_cons]
      by_cases h : vtPrints st c = true
      · have hc : ¬ c = '\n' := vtPrints_ne_newline h
        simp only [decodeStep, h, if_true, AnstylePerformer.printChar,
          if_neg hc]
        rw [ih]
        simp [vtStrip, h, List.append_assoc]
      · simp only [decodeStep, if_neg h]
        rw [ih]
        have h2 : vtPrints st c = false := by
          revert h
          cases vtPrints st c <;> simp
        simp [vtStrip, h2]

theorem vtNext_ground_printable {c : Char} (h : 0x20 ≤ c.toNat) :
    vtNext .ground c = .ground := by
  simp only [vtNext]
  rw [if_neg (by omega), if_neg (by omega)]

theorem vtPrints_ground_printable {c : Char} (h : 0x20 ≤ c.toNat) :
    vtPrints .ground c = true := by
  simp only [vtPrints]
  exact decide_eq_true h

theorem foldl_printable (cs : List Char) :
    ∀ p : AnstylePerformer, (∀ c ∈ cs, 0x20 ≤ c.toNat) →
      cs.foldl decodeStep (p, .ground)
        = (⟨p.labels, p.text ++ cs, p.color⟩, .ground) := by
  induction cs with
  | nil =>
      intro p _
      simp
  | cons c cs ih =>
      intro p h
      have hc : 0x20 ≤ c.toNat := h c (by simp)
      have hnl : ¬ c = '\n' := by
        intro e
        subst e
        exact absurd hc (by decide)
      rw [List.foldl_cons]
      simp only [decodeStep, vtNext_ground_printable hc,
        vtPrints_ground_printable hc, if_true, AnstylePerformer.printChar,
        if_neg hnl]
      rw [ih ⟨p.labels, p.text ++ [c], p.color⟩ (fun x hx => h x (by simp [hx]))]
      simp

/-- Printable character predicate: code point at least 0x20 and not DEL. -/
def printableChar (c : Char) : Bool :=
  decide (0x20 ≤ c.toNat) && decide (c.toNat ≠ 0x7F)

/-- Invariant carried through decoding for the color claims: all emitted
labels have color v and the performer register is v. -/
def colorOk (v : Color32) (p : AnstylePerformer) : Bool :=
  (p.labels.all fun r => r.color == v) && (p.color == v)

theorem flush_colorOk {v : Color32} {p : AnstylePerformer}
    (h : colorOk v p = true) : colorOk v p.flush = true := by
  unfold colorOk at h ⊢
  unfold AnstylePerformer.flush
  by_cases ht : p.text = []
  · simpa [ht] using h
  · simp only [ht, if_neg]
    simp only [Bool.and_eq_true] at h ⊢
    refine ⟨?_, h.2⟩
    simp [List.all_append, h.1, h.2]

theorem printChar_colorOk {v : Color32} {p : AnstylePerformer} {c : Char}
    (h : colorOk v p = true) : colorOk v (p.printChar c) = true := by
  unfold AnstylePerformer.printChar
  by_cases hc : c = '\n'
  · simpa [hc] using flush_colorOk h
  · unfold colorOk at h ⊢
    simpa [hc] using h

theorem foldl_colorOk {v : Color32} (cs : List Char) :
    ∀ ps : AnstylePerformer × VtState, colorOk v ps.1 = true →
      colorOk v ((cs.foldl decodeStep ps).1) = true := by
  induction cs with
  | nil =>
      intro ps h
      simpa using h
  | cons c cs ih =>
      intro ps h
      rw [List.foldl_cons]
      apply ih
      unfold decodeStep
      by_cases hp : vtPrints ps.2 c = true
      · simpa [hp] using printChar_colorOk h
      · simpa [hp] using h

/-! ### Claims about the decoder -/

/-- Claim C1 is false as stated: the color transition scenario input, with
the Default base color, decodes to one single run and not to the three runs
the claim lists, because the Perform implementation overrides only print
and the SGR dispatch callback is the default no-op. -/
theorem c1_counterexample :
    decodeLine .placeholder ("A\x1B[33mB\x1B[0mC".toList)
      ≠ [⟨"A".toList, .placeholder⟩, ⟨"B".toList, .yellow⟩,
         ⟨"C".toList, .placeholder⟩] := by
  decide

/-- Claim C1 as amended: completing an SGR sequence neither flushes the
pending buffer nor updates the color register — the sequence is stripped
with no effect, every emitted run carries the base color, and the color
transition scenario input with base color Default decodes to the single
run ABC with the Default color. -/
theorem c1_amended :
    (∀ (color : Color32) (cs : List Char),
        (decodeLine color cs).all (fun r => r.color == color) = true)
    ∧ decodeLine .placeholder ("A\x1B[33mB\x1B[0mC".toList)
        = [⟨"ABC".toList, .placeholder⟩] := by
  constructor
  · intro color cs
    have h0 : colorOk color (⟨[], [], color⟩ : AnstylePerformer) = true := by
      simp [colorOk]
    have h1 := foldl_colorOk cs (⟨⟨[], [], color⟩, .ground⟩ :
      AnstylePerformer × VtState) h0
    have h2 := flush_colorOk h1
    unfold colorOk at h2
    rw [Bool.and_eq_true] at h2
    exact h2.1
  · decide

/-- Claim C7 is false as stated: a line with no escape sequences at all can
still lose characters, because control characters are dispatched to the
execute callback and never printed; the tab is dropped, so the
concatenation differs from the input even though there is nothing to
strip. -/
theorem c7_counterexample :
    ('\x1B' ∉ "A\tB".toList)
    ∧ runsText (decodeLine .placeholder ("A\tB".toList)) = "AB".toList
    ∧ "AB".toList ≠ "A\tB".toList := by
  decide

/-- Claim C7 as amended: concatenating the text fields of all runs produced
for a line reproduces the original line with escape sequences and all
control characters (newlines included) removed — precisely the characters
the ground state prints. -/
theorem c7_amended (color : Color32) (cs : List Char) :
    runsText (decodeLine color cs) = vtStrip .ground cs := by
  unfold decodeLine
  rw [decode_concat_aux]
  simp [runsText]

/-- Claim C8 is false as stated: a nonempty line with no escape sequences
can decode to no run at all when it consists of control characters, which
are dropped without ever reaching the pending buffer. -/
theorem c8_counterexample :
    ('\x1B' ∉ "\t".toList)
    ∧ decodeLine .placeholder ("\t".toList) = []
    ∧ ([] : List StyledRun) ≠ [⟨"\t".toList, .placeholder⟩] := by
  decide

/-- Claim C8 as amended: a nonempty line of printable characters (code
points at least 0x20, DEL excluded — in particular no escape sequences and
no control characters) decodes to exactly one run whose text is the whole
line and whose color is the supplied base color. -/
theorem c8_amended (color : Color32) (cs : List Char) (h1 : cs ≠ [])
    (h2 : cs.all printableChar = true) :
    decodeLine color cs = [⟨cs, color⟩] := by
  have hmem : ∀ c ∈ cs, 0x20 ≤ c.toNat := by
    intro c hc
    have hp := List.all_eq_true.mp h2 c hc
    unfold printableChar at hp
    rw [Bool.and_eq_true] at hp
    exact of_decide_eq_true hp.1
  unfold decodeLine
  rw [foldl_printable cs (⟨[], [], color⟩ : AnstylePerformer) hmem]
  unfold AnstylePerformer.flush
  simp [h1]

/-- Witness for C8 at a concrete input. -/
theorem c8_amended_witness :
    decodeLine .placeholder ("AB".toList)
      = [⟨"AB".toList, .placeholder⟩] :=
  c8_amended .placeholder ("AB".toList) (by decide) (by decide)

/-- Claim C9: the decoder is a total function, and an unterminated escape
at end of input has no effect on the result: appending ESC followed by the
CSI opener to any input yields exactly the runs of the input alone, so the
text accumulated before the escape began is still produced and no
malformed tail corrupts the output. -/
theorem c9_unterminated_escape (color : Color32) (cs : List Char) :
    decodeLine color (cs ++ ['\x1B', '[']) = decodeLine color cs := by
  unfold decodeLine
  rw [List.foldl_append]
  rcases hps : cs.foldl decodeStep (⟨⟨[], [], color⟩, .ground⟩ :
    AnstylePerformer × VtState) with ⟨p, st⟩
  simp only [List.foldl_cons, List.foldl_nil]
  have h1 : vtPrints st '\x1B' = false := by cases st <;> decide
  have h2 : vtNext st '\x1B' = .escape := by cases st <;> decide
  have h3 : vtPrints .escape '[' = false := by decide
  simp [decodeStep, h1, h2, h3]

/-- Claim C10: evaluation exhibiting the dead newline branch. The machine
never delivers a newline to the print callback in any state, so the
flush-per-line branch of print is unreachable: the multi-line record A
newline B decodes to the single glued run AB instead of one run per line. -/
theorem c10_newline_dead_branch :
    (∀ st : VtState, vtPrints st '\n' = false)
    ∧ decodeLine .placeholder ("A\nB".toList) = [⟨"AB".toList, .placeholder⟩]
    ∧ decodeLine .placeholder ("A\nB".toList)
        ≠ [⟨"A".toList, .placeholder⟩, ⟨"B".toList, .placeholder⟩] :=
  ⟨vtPrints_newline_false, by decide, by decide⟩

end EguiLogger
